import Mathlib

/-!
Verification development for the `matsuo-miyu-blog` archiving pipeline
(`scripts/fetch.py` and `scripts/fetch_one.py`).

The Python sources are shallowly embedded below: pure string helpers become
Lean string/list functions, the stateful `main` loop becomes explicit state
passing over a `RunState`, network calls become oracles (`parse`, `ok`)
supplied as parameters, and the unbounded pagination `while` loop becomes a
fuel-indexed function whose divergence is `none` for every fuel.
-/

namespace MatsuoBlog

/-- `BASE` constant from `fetch.py` / `fetch_one.py`. -/
def BASE : String := "https://www.nogizaka46.com"

/-- `IMG_EXTS` constant from `fetch.py` / `fetch_one.py`. -/
def IMG_EXTS : List String := [".jpg", ".jpeg", ".png", ".webp", ".gif"]

/-- Worker for `dedup_keep`: `seen` is the set of already-emitted strings
(the Python code keeps a `seen : set` alongside the output list). -/
def dedupKeepGo : List String → List String → List String
  | [], _ => []
  | x :: xs, seen => if x ∈ seen then dedupKeepGo xs seen else x :: dedupKeepGo xs (x :: seen)

/-- `_dedup_keep` from `fetch.py` (also `list(dict.fromkeys(...))` in
`fetch_one.py`): drop duplicates, keeping each first occurrence. -/
def dedup_keep (seq : List String) : List String := dedupKeepGo seq []

/-- `re.sub(r"\?.*$", "", u)`: remove everything from the first `?` on
(this is also `normalize_detail_url`). -/
def stripQuery (u : String) : String := ((u.toList).takeWhile (fun c => c ≠ '?')).asString

/-- `s.startswith(pre)` via the underlying character lists (kept
kernel-reducible, unlike `String.startsWith`). -/
def startsWithStr (s pre : String) : Bool := (pre.toList).isPrefixOf (s.toList)

/-- Models `urllib.parse.urljoin(BASE, src)` for the URL shapes this pipeline
meets: absolute URLs are kept, scheme-relative (`//…`) and root-relative
(`/…`) references are resolved against the base, other references are joined
onto the (path-less) base. -/
def urljoinBase (src : String) : String :=
  if startsWithStr src "http://" || startsWithStr src "https://" then src
  else if startsWithStr src "//" then "https:" ++ src
  else if startsWithStr src "/" then BASE ++ src
  else BASE ++ "/" ++ src

/-- Models `urllib.parse.urlparse(u).path` for `http(s)` URLs: drop the
scheme and authority, keep the path up to the query/fragment. -/
def urlPath (u : String) : String :=
  let rest :=
    if startsWithStr u "https://" then (u.toList).drop 8
    else if startsWithStr u "http://" then (u.toList).drop 7
    else []
  ((rest.dropWhile (fun c => c ≠ '/')).takeWhile (fun c => c ≠ '?' && c ≠ '#')).asString

/-- ASCII lowering, as `str.lower()` acts on the ASCII URL paths used here. -/
def lowerStr (s : String) : String := ((s.toList).map Char.toLower).asString

/-- `suffix.endswith` on strings via the underlying character lists. -/
def endsWithStr (s suffix : String) : Bool := (suffix.toList).isSuffixOf (s.toList)

/-- Index (in yields) arithmetic for year-month pairs: `12*y + m`.
Two pairs with months in `1..12` are equal iff their indices are equal. -/
def ymIdx (p : Int × Int) : Int := 12 * p.1 + p.2

/-- One step of the month countdown in `iter_months_desc`:
`m -= 1; if m == 0: y -= 1; m = 12`. -/
def monthStep (p : Int × Int) : Int × Int :=
  let m := p.2 - 1
  if m = 0 then (p.1 - 1, 12) else (p.1, m)

/-- The `n`-th year-month pair yielded by `iter_months_desc` when started at
`start` (the generator yields the current pair, then steps). -/
def iter_months_desc : Int × Int → Nat → Int × Int
  | start, 0 => start
  | start, n + 1 => monthStep (iter_months_desc start n)

/-- The per-month `while True` page loop of `extract_post_urls_all_months`
(`fetch.py` lines 235-265), fuel-indexed.  `resp page = (status, links)` is
the fetched-and-link-extracted listing page.  Returns `some (p, urls)` when
the loop breaks at page `p` (so exactly `p` pages were fetched), `none` when
`fuel` pages were fetched without reaching a break. -/
def extract_month_pages (resp : Nat → Nat × List String) :
    Nat → Nat → List String → Option (Nat × List String)
  | 0, _, _ => none
  | fuel + 1, page, urls =>
    let status := (resp page).1
    let links := (resp page).2
    if status ≠ 200 then some (page, urls)
    else if links = [] then some (page, urls)
    else extract_month_pages resp fuel (page + 1) (dedup_keep (urls ++ links))

/-- The per-month page loop terminates on response stream `resp`:
some amount of fuel suffices for the loop to reach a `break`. -/
def BucketTerminates (resp : Nat → Nat × List String) : Prop :=
  ∃ fuel, (extract_month_pages resp fuel 1 []).isSome = true

/-- A listing server that answers every page with HTTP 200 and the same
single (already-seen) detail link. -/
def constantListResp : Nat → Nat × List String :=
  fun _ => (200, ["https://www.nogizaka46.com/s/n46/diary/detail/1"])

lemma extract_month_pages_constant (fuel : Nat) :
    ∀ page urls, extract_month_pages constantListResp fuel page urls = none := by
  induction fuel with
  | zero => intro page urls; rfl
  | succ f ih =>
    intro page urls
    simp only [extract_month_pages, constantListResp]
    exact ih (page + 1) _

lemma monthStep_idx (y m : Int) (h1 : 1 ≤ m) (h2 : m ≤ 12) :
    ymIdx (monthStep (y, m)) = ymIdx (y, m) - 1 ∧
    1 ≤ (monthStep (y, m)).2 ∧ (monthStep (y, m)).2 ≤ 12 := by
  unfold monthStep ymIdx
  by_cases hm : m - 1 = 0 <;> simp [hm] <;> omega

lemma iter_months_desc_idx (sy sm : Int) (hs1 : 1 ≤ sm) (hs2 : sm ≤ 12) (n : Nat) :
    ymIdx (iter_months_desc (sy, sm) n) = ymIdx (sy, sm) - n ∧
    1 ≤ (iter_months_desc (sy, sm) n).2 ∧ (iter_months_desc (sy, sm) n).2 ≤ 12 := by
  induction n with
  | zero => simpa [iter_months_desc] using ⟨hs1, hs2⟩
  | succ k ih =>
    obtain ⟨hidx, hm1, hm2⟩ := ih
    have hstep := monthStep_idx (iter_months_desc (sy, sm) k).1
      (iter_months_desc (sy, sm) k).2 hm1 hm2
    simp only [iter_months_desc]
    constructor
    · rw [show (iter_months_desc (sy, sm) k).1 = (iter_months_desc (sy, sm) k).1 from rfl] at hstep
      have := hstep.1
      simp only [Prod.mk.eta] at this
      rw [this, hidx]
      push_cast
      ring
    · have := hstep.2
      simpa only [Prod.mk.eta] using this

lemma ym_eq_of_idx_eq (p q : Int × Int) (hp1 : 1 ≤ p.2) (hp2 : p.2 ≤ 12)
    (hq1 : 1 ≤ q.2) (hq2 : q.2 ≤ 12) (h : ymIdx p = ymIdx q) : p = q := by
  obtain ⟨py, pm⟩ := p
  obtain ⟨qy, qm⟩ := q
  simp only [ymIdx] at h
  simp only at hp1 hp2 hq1 hq2
  have hy : py = qy := by omega
  have hm : pm = qm := by omega
  simp [hy, hm]

lemma extract_month_pages_reaches (resp : Nat → Nat × List String) (p : Nat)
    (hstop : (resp p).1 ≠ 200 ∨ (resp p).2 = [])
    (hrun : ∀ q, 1 ≤ q → q < p → (resp q).1 = 200 ∧ (resp q).2 ≠ []) :
    ∀ fuel page urls, 1 ≤ page → page ≤ p → p < page + fuel →
      ∃ us, extract_month_pages resp fuel page urls = some (p, us) := by
  intro fuel
  induction fuel with
  | zero => intro page urls h1 h2 h3; omega
  | succ f ih =>
    intro page urls h1 h2 h3
    by_cases hpp : page = p
    · subst hpp
      by_cases hs : (resp page).1 ≠ 200
      · exact ⟨urls, by simp [extract_month_pages, hs]⟩
      · have hl : (resp page).2 = [] := by tauto
        exact ⟨urls, by simp [extract_month_pages, hs, hl]⟩
    · have hlt : page < p := lt_of_le_of_ne h2 hpp
      have hq := hrun page h1 hlt
      have hstep : extract_month_pages resp (f + 1) page urls
          = extract_month_pages resp f (page + 1) (dedup_keep (urls ++ (resp page).2)) := by
        simp [extract_month_pages, hq.1, hq.2]
      rw [hstep]
      exact ih (page + 1) _ (by omega) (by omega) (by omega)

/-- Claim C1, counterexample: the per-month page loop of
`extract_post_urls_all_months` does NOT always fetch finitely many pages.
Against a server that answers every page with status 200 and the same single
already-seen detail link (zero NEW links on every page after the first), the
loop never reaches a `break`: the code has no zero-new-links streak counter
and no page ceiling — it only stops on a non-200 status or a page with zero
links at all. -/
theorem extract_month_pages_not_always_finite : ¬ BucketTerminates constantListResp := by
  rintro ⟨fuel, h⟩
  rw [extract_month_pages_constant fuel 1 []] at h
  simp at h

/-- Claim C1, amended: the per-month page loop stops exactly at the first
page whose response is non-200 or contains zero links (links already seen
still count as progress); in particular, when page 1 yields zero links,
exactly one page is fetched and the month contributes no URLs. -/
theorem extract_month_pages_stop_spec (resp : Nat → Nat × List String) (fuel p : Nat)
    (hp : 1 ≤ p) (hfuel : p ≤ fuel)
    (hstop : (resp p).1 ≠ 200 ∨ (resp p).2 = [])
    (hrun : ∀ q, 1 ≤ q → q < p → (resp q).1 = 200 ∧ (resp q).2 ≠ []) :
    (∃ urls, extract_month_pages resp fuel 1 [] = some (p, urls)) ∧
    ((resp 1).2 = [] → extract_month_pages resp fuel 1 [] = some (1, [])) := by
  constructor
  · exact extract_month_pages_reaches resp p hstop hrun fuel 1 [] (by omega) hp (by omega)
  · intro h1
    obtain ⟨f, rfl⟩ : ∃ f, fuel = f + 1 := ⟨fuel - 1, by omega⟩
    by_cases hs : (resp 1).1 ≠ 200
    · simp [extract_month_pages, hs]
    · simp [extract_month_pages, hs, h1]

/-- A listing server that answers every page with status 200 and no links. -/
def emptyListResp : Nat → Nat × List String := fun _ => (200, [])

/-- Witness for the amended C1 theorem at a concrete response stream. -/
theorem extract_month_pages_stop_spec_witness :
    extract_month_pages emptyListResp 1 1 [] = some (1, []) :=
  (extract_month_pages_stop_spec emptyListResp 1 1 (by omega) (by omega)
    (Or.inr rfl) (fun q hq1 hq2 => absurd (lt_of_le_of_lt hq1 hq2) (by omega))).2 rfl

/-- Claim C10: `iter_months_desc(start, end)` terminates iff the start
year-month is calendar-wise at or after the end year-month; the `n`-th
yielded month is exactly `n` calendar months before the start (so the yields
are strictly descending consecutive months, both endpoints included, ending
at the end month after `ymIdx start - ymIdx end` steps); when the start is
strictly earlier than the end, every yielded month stays strictly below the
end month and the end pair is never reached, so the generator never
terminates. -/
theorem iter_months_desc_spec (sy sm ey em : Int)
    (hs1 : 1 ≤ sm) (hs2 : sm ≤ 12) (he1 : 1 ≤ em) (he2 : em ≤ 12) :
    ((∃ n, iter_months_desc (sy, sm) n = (ey, em)) ↔
      (ey < sy ∨ (ey = sy ∧ em ≤ sm))) ∧
    (∀ n, ymIdx (iter_months_desc (sy, sm) n) = ymIdx (sy, sm) - n) ∧
    (ymIdx (ey, em) ≤ ymIdx (sy, sm) →
      iter_months_desc (sy, sm) (ymIdx (sy, sm) - ymIdx (ey, em)).toNat = (ey, em)) ∧
    (ymIdx (sy, sm) < ymIdx (ey, em) →
      ∀ n, iter_months_desc (sy, sm) n ≠ (ey, em) ∧
        ymIdx (iter_months_desc (sy, sm) n) < ymIdx (ey, em)) := by
  have hidx := fun n => (iter_months_desc_idx sy sm hs1 hs2 n).1
  have hrange := fun n => (iter_months_desc_idx sy sm hs1 hs2 n).2
  have hreach : ymIdx (ey, em) ≤ ymIdx (sy, sm) →
      iter_months_desc (sy, sm) (ymIdx (sy, sm) - ymIdx (ey, em)).toNat = (ey, em) := by
    intro hle
    set N := (ymIdx (sy, sm) - ymIdx (ey, em)).toNat with hN
    have hNval : (N : Int) = ymIdx (sy, sm) - ymIdx (ey, em) :=
      Int.toNat_of_nonneg (by omega)
    have hidxN : ymIdx (iter_months_desc (sy, sm) N) = ymIdx (ey, em) := by
      rw [hidx N, hNval]; ring
    exact ym_eq_of_idx_eq _ _ (hrange N).1 (hrange N).2 he1 he2 hidxN
  refine ⟨?_, hidx, hreach, ?_⟩
  · constructor
    · rintro ⟨n, hn⟩
      have := hidx n
      rw [hn] at this
      simp only [ymIdx] at this
      have hnn : (0 : Int) ≤ (n : Int) := by positivity
      omega
    · intro hle
      have hle' : ymIdx (ey, em) ≤ ymIdx (sy, sm) := by
        simp only [ymIdx]; omega
      exact ⟨_, hreach hle'⟩
  · intro hlt n
    have h1 := hidx n
    have hnn : (0 : Int) ≤ (n : Int) := by positivity
    constructor
    · intro heq
      rw [heq] at h1
      omega
    · omega

/-- Witness for C10: walking from 2026-01 (the repository's `START_YM`) the
generator reaches 2020-01 (`END_YM`) at the 72nd step. -/
theorem iter_months_desc_spec_witness : iter_months_desc (2026, 1) 72 = (2020, 1) := by
  have h := (iter_months_desc_spec 2026 1 2020 1 (by norm_num) (by norm_num)
    (by norm_num) (by norm_num)).2.2.1 (by decide)
  simpa using h

lemma mem_dedupKeepGo (c : String) :
    ∀ (l seen : List String), c ∈ dedupKeepGo l seen ↔ c ∈ l ∧ c ∉ seen := by
  intro l
  induction l with
  | nil => intro seen; simp [dedupKeepGo]
  | cons x xs ih =>
    intro seen
    simp only [dedupKeepGo]
    by_cases hx : x ∈ seen
    · rw [if_pos hx, ih, List.mem_cons]
      constructor
      · rintro ⟨h1, h2⟩; exact ⟨Or.inr h1, h2⟩
      · rintro ⟨rfl | h1, h2⟩
        · exact absurd hx h2
        · exact ⟨h1, h2⟩
    · rw [if_neg hx, List.mem_cons, ih, List.mem_cons, List.mem_cons]
      by_cases hcx : c = x
      · subst hcx; tauto
      · tauto

lemma nodup_dedupKeepGo : ∀ (l seen : List String), (dedupKeepGo l seen).Nodup := by
  intro l
  induction l with
  | nil => intro seen; simp [dedupKeepGo]
  | cons x xs ih =>
    intro seen
    simp only [dedupKeepGo]
    by_cases hx : x ∈ seen
    · rw [if_pos hx]; exact ih seen
    · rw [if_neg hx]
      refine List.nodup_cons.mpr ⟨?_, ih (x :: seen)⟩
      intro hmem
      exact ((mem_dedupKeepGo x xs (x :: seen)).mp hmem).2 (List.mem_cons_self x seen)

lemma indexOf_dedupKeepGo (c : String) :
    ∀ (l seen : List String), c ∈ l → c ∉ seen →
      (dedupKeepGo l seen).indexOf c
        = (dedupKeepGo (l.takeWhile (fun x => x ≠ c)) seen).length := by
  intro l
  induction l with
  | nil => intro seen h; simp at h
  | cons x xs ih =>
    intro seen hmem hseen
    by_cases hxc : x = c
    · subst hxc
      simp only [dedupKeepGo, if_neg hseen]
      have htw : (x :: xs).takeWhile (fun y => decide (y ≠ x)) = [] := by
        rw [List.takeWhile_cons]
        simp
      simp [htw, dedupKeepGo, List.indexOf_cons_self]
    · have hmem' : c ∈ xs := by
        rcases List.mem_cons.mp hmem with rfl | h
        · exact absurd rfl hxc
        · exact h
      have htw : (x :: xs).takeWhile (fun y => decide (y ≠ c))
          = x :: xs.takeWhile (fun y => decide (y ≠ c)) := by
        rw [List.takeWhile_cons]
        simp [hxc]
      rw [htw]
      simp only [dedupKeepGo]
      by_cases hx : x ∈ seen
      · rw [if_pos hx, if_pos hx]
        exact ih seen hmem' hseen
      · rw [if_neg hx, if_neg hx]
        have hcx : c ∉ (x :: seen) := by
          simp only [List.mem_cons, not_or]
          exact ⟨fun h => hxc h.symm, hseen⟩
        rw [List.indexOf_cons_ne _ (by exact hxc), List.length_cons,
          ih (x :: seen) hmem' hcx]

lemma count_dedup_keep_eq_one (c : String) (l : List String) (h : c ∈ l) :
    (dedup_keep l).count c = 1 := by
  have hmem : c ∈ dedup_keep l := (mem_dedupKeepGo c l []).mpr ⟨h, by simp⟩
  have hnd : (dedup_keep l).Nodup := nodup_dedupKeepGo l []
  exact List.count_eq_one_of_mem hnd hmem

/-- The image-collection stage of `parse_post` (`fetch.py` lines 154-162),
applied to one `img` `src` attribute: resolve against `BASE`, keep it when
the lowercased URL path ends in a known image extension, and return the
query-stripped absolute URL. -/
def imgCanon (src : String) : Option String :=
  let full := urljoinBase src
  let path := lowerStr (urlPath full)
  if IMG_EXTS.any (fun ext => endsWithStr path ext) then some (stripQuery full) else none

/-- `parse_post`'s `image_urls` value (`fetch.py`): canonicalize every
`img` `src` in document order, then `_dedup_keep`. -/
def parse_post_images (srcs : List String) : List String :=
  dedup_keep (srcs.filterMap imgCanon)

/-- Claim C6: a detail page referencing the same image URL twice (for
instance with differing query strings) yields exactly one entry in the
parsed image sequence: the query-stripped canonicalized absolute URL,
sitting at the position of the first occurrence (its index is the number of
distinct earlier image URLs). -/
theorem parse_post_images_dedup (srcs : List String) (s1 s2 c : String)
    (hm1 : s1 ∈ srcs) (hm2 : s2 ∈ srcs)
    (h1 : imgCanon s1 = some c) (h2 : imgCanon s2 = some c) :
    c ∈ parse_post_images srcs ∧
    (parse_post_images srcs).count c = 1 ∧
    (parse_post_images srcs).indexOf c
      = (dedup_keep ((srcs.filterMap imgCanon).takeWhile (fun x => x ≠ c))).length := by
  have hmemc : c ∈ srcs.filterMap imgCanon :=
    List.mem_filterMap.mpr ⟨s1, hm1, h1⟩
  refine ⟨(mem_dedupKeepGo c _ []).mpr ⟨hmemc, by simp⟩,
    count_dedup_keep_eq_one c _ hmemc, ?_⟩
  exact indexOf_dedupKeepGo c _ [] hmemc (by simp)

/-- Witness for C6: the same image referenced with two different query
strings collapses to the single canonical URL, kept at position 0. -/
theorem parse_post_images_dedup_witness :
    "https://www.nogizaka46.com/files/46/a.jpg"
      ∈ parse_post_images ["/files/46/a.jpg?t=1", "/files/46/a.jpg?t=2"] ∧
    (parse_post_images ["/files/46/a.jpg?t=1", "/files/46/a.jpg?t=2"]).count
      "https://www.nogizaka46.com/files/46/a.jpg" = 1 ∧
    (parse_post_images ["/files/46/a.jpg?t=1", "/files/46/a.jpg?t=2"]).indexOf
      "https://www.nogizaka46.com/files/46/a.jpg" = 0 := by
  have h := parse_post_images_dedup ["/files/46/a.jpg?t=1", "/files/46/a.jpg?t=2"]
    "/files/46/a.jpg?t=1" "/files/46/a.jpg?t=2" "https://www.nogizaka46.com/files/46/a.jpg"
    (by simp) (by simp) (by decide) (by decide)
  refine ⟨h.1, h.2.1, ?_⟩
  rw [h.2.2]
  decide

/-- Python whitespace class `\s` (also what `str.strip()` removes). -/
def pyWS (c : Char) : Bool :=
  c = ' ' || c = '\t' || c = '\n' || c = '\r' || c = Char.ofNat 11 || c = Char.ofNat 12

/-- Worker for `re.sub(r"\s+", " ", s)`: collapse each whitespace run to one
space; `prevWS` says whether the previous character closed such a run. -/
def collapseWSGo : Bool → List Char → List Char
  | _, [] => []
  | prevWS, c :: cs =>
    if pyWS c then
      if prevWS then collapseWSGo true cs else ' ' :: collapseWSGo true cs
    else c :: collapseWSGo false cs

/-- `str.strip()` on a character list. -/
def stripL (l : List Char) : List Char :=
  ((l.dropWhile pyWS).reverse.dropWhile pyWS).reverse

/-- The characters `safe_folder` replaces with `_`. -/
def badFolderChar (c : Char) : Bool :=
  c = '\\' || c = '/' || c = ':' || c = '*' || c = '?' || c = '\"' || c = '<' ||
    c = '>' || c = '|'

/-- `safe_folder` from `fetch.py` / `fetch_one.py`: replace illegal filename
characters with `_`, collapse whitespace runs, strip, cap at 140 characters,
fall back to "untitled" when the result is empty. -/
def safe_folder (s : String) : String :=
  let cs := (s.toList).map (fun c => if badFolderChar c then '_' else c)
  let cs := stripL (collapseWSGo false cs)
  if cs = [] then "untitled" else (cs.take 140).asString

/-- Worker for `str.replace`: non-overlapping left-to-right replacement,
fuelled by the remaining length. -/
def replaceGo (pat rep : List Char) : Nat → List Char → List Char
  | _, [] => []
  | 0, l => l
  | fuel + 1, c :: cs =>
    if pat.isPrefixOf (c :: cs) then
      rep ++ replaceGo pat rep fuel ((c :: cs).drop pat.length)
    else c :: replaceGo pat rep fuel cs

/-- `s.replace(pat, rep)` for the nonempty patterns this code uses. -/
def strReplace (s pat rep : String) : String :=
  if pat.toList = [] then s
  else (replaceGo (pat.toList) (rep.toList) (s.toList).length (s.toList)).asString

/-- `s.split(ch)[0]`: the text before the first occurrence of `ch` (the
whole string when absent). -/
def takeUntilChar (ch : Char) (s : String) : String :=
  ((s.toList).takeWhile (fun c => c ≠ ch)).asString

/-- The final path component (text after the last `/`). -/
def lastComponent (l : List Char) : List Char :=
  ((l.reverse).takeWhile (fun c => c ≠ '/')).reverse

/-- Models `pathlib.PurePath(p).suffix`: the last dot-suffix of the final
component, empty when the dot is missing, leading, or trailing. -/
def pathSuffix (p : String) : String :=
  let name := lastComponent (p.toList)
  let tail := (name.reverse).takeWhile (fun c => c ≠ '.')
  if tail.length = name.length then ""
  else
    let i := name.length - tail.length - 1
    if 0 < i ∧ i < name.length - 1 then (name.drop i).asString else ""

/-- `ext = Path(urlparse(img_url).path).suffix or ".jpg"` from `main`. -/
def imgExt (u : String) : String :=
  let ext := pathSuffix (urlPath u)
  if ext = "" then ".jpg" else ext

/-- A decimal digit character. -/
def digitChar (n : Nat) : Char := Char.ofNat (48 + n % 10)

/-- `f"{n:02d}"` for the two-digit image counters used here (`n < 100`). -/
def pad2 (n : Nat) : String := ([digitChar (n / 10), digitChar n]).asString

/-- The `PostIndex` dataclass of `fetch.py` (the persisted index record). -/
structure PostIndex where
  id : String
  title : String
  datetime : String
  url : String
  local_dir : String
  images : List String
  links_in_post : List String
deriving DecidableEq

/-- The tuple `parse_post` returns (the raw HTML body is carried separately
as the list of its `img` `src` attributes where needed). -/
structure Parsed where
  title : String
  dt : String
  pid : String
  finalUrl : String
  imageUrls : List String
  links : List String
deriving DecidableEq

/-- `year = dt.split(".")[0] if dt != "unknown" else "unknown"`. -/
def mkYear (dt : String) : String :=
  if dt = "unknown" then "unknown" else takeUntilChar '.' dt

/-- `dt_folder = dt.replace(".", "-").replace(" ", "_").replace(":", "")`. -/
def dtFolderPart (dt : String) : String :=
  strReplace (strReplace (strReplace dt "." "-") " " "_") ":" ""

/-- `folder_name` computed in `main` / `fetch_one`. -/
def folder_name (dt pid : String) : String :=
  if dt = "unknown" then safe_folder pid
  else safe_folder (dtFolderPart dt ++ "_" ++ pid)

/-- `str(post_dir.relative_to(DOCS_DIR))`: the post's directory relative to
the archive root. -/
def local_dir_of (dt pid : String) : String :=
  "posts/" ++ mkYear dt ++ "/" ++ folder_name dt pid

/-- `rel = f"images/{n:02d}{ext}"` for the `n`-th image URL. -/
def relName (n : Nat) (u : String) : String := "images/" ++ pad2 n ++ imgExt u

/-- The image download loop of `main` (`fetch.py` lines 337-347): walk the
distinct image URLs with counter `n` starting at 1; a successful download
(`ok u`) appends the archive-relative saved path to `saved_imgs` and the
`(canonical URL, relative name)` pair to `mapping_for_html`; a failure only
skips that image (its counter value is consumed). -/
def archiveImages (ok : String → Bool) (dirRel : String) :
    Nat → List String → List String × List (String × String)
  | _, [] => ([], [])
  | n, u :: us =>
    let rest := archiveImages ok dirRel (n + 1) us
    if ok u then ((dirRel ++ "/" ++ relName n u) :: rest.1, (u, relName n u) :: rest.2)
    else rest

/-- The `PostIndex` record `main` appends for a newly archived post. -/
def mkRecord (ok : String → Bool) (p : Parsed) : PostIndex :=
  { id := p.pid
    title := p.title
    datetime := p.dt
    url := p.finalUrl
    local_dir := local_dir_of p.dt p.pid
    images := (archiveImages ok (local_dir_of p.dt p.pid) 1 p.imageUrls).1
    links_in_post := p.links }

/-- The on-disk writes `main` performs for one new post, in write order. -/
def postWrites (ok : String → Bool) (p : Parsed) : List String :=
  let dir := local_dir_of p.dt p.pid
  (dir ++ "/page_raw.html") ::
    ((archiveImages ok dir 1 p.imageUrls).1 ++ [dir ++ "/page.html", dir ++ "/index.md"])

/-- `rewrite_html_images_to_local` acting on one `img` `src` attribute:
canonicalize it and substitute the mapped local name when present. -/
def rewrite_img_src (mapping : List (String × String)) (src : String) : String :=
  match List.lookup (stripQuery (urljoinBase src)) mapping with
  | some rel => rel
  | none => src

/-- `rewrite_html_images_to_local`, viewed on the document's `img` `src`
attribute list (all other markup is untouched by the function). -/
def rewrite_html_images_to_local (mapping : List (String × String))
    (srcs : List String) : List String :=
  srcs.map (rewrite_img_src mapping)

/-- The mutable state of `main`'s archiving loop, plus the two effect logs
(detail URLs fetched over the network, paths written to disk). -/
structure RunState where
  existingIds : List String
  index : List PostIndex
  fetchedDetail : List String
  writtenPaths : List String
deriving DecidableEq

/-- One iteration of `main`'s `for url in post_urls` loop (`fetch.py` lines
310-385).  `parse url` is `parse_post(url)` — it always performs the network
fetch of `url`, and is `none` when it raises (non-200 status or transport
error), in which case the loop just continues; a parsed post whose id is
already known is skipped; otherwise the post is archived and appended. -/
def processUrl (parse : String → Option Parsed) (ok : String → Bool)
    (st : RunState) (url : String) : RunState :=
  match parse url with
  | none => { st with fetchedDetail := st.fetchedDetail ++ [url] }
  | some p =>
    if p.pid ∈ st.existingIds then
      { st with fetchedDetail := st.fetchedDetail ++ [url] }
    else
      { existingIds := st.existingIds ++ [p.pid]
        index := st.index ++ [mkRecord ok p]
        fetchedDetail := st.fetchedDetail ++ [url]
        writtenPaths := st.writtenPaths ++ postWrites ok p }

/-- `main`'s whole archiving loop over the discovered URL batch. -/
def main_run (parse : String → Option Parsed) (ok : String → Bool)
    (st : RunState) (urls : List String) : RunState :=
  urls.foldl (processUrl parse ok) st

/-- The three relevant states of the persisted `posts.json` file. -/
inductive IndexFile where
  | absent
  | malformed
  | jsonList (records : List PostIndex)

/-- `load_existing_ids` from `fetch.py`: a missing file, unreadable JSON, or
a non-list document all give the empty id set (silently — the function
prints nothing); otherwise the truthy ids of the entries. -/
def load_existing_ids : IndexFile → List String
  | .absent => []
  | .malformed => []
  | .jsonList rs => (rs.filter (fun r => r.id ≠ "")).map (fun r => r.id)

/-- The existing-index preload inside `main` (`fetch.py` lines 288-307):
entries with a truthy id are carried over, everything else silently gives
the empty list. -/
def load_old_index : IndexFile → List PostIndex
  | .absent => []
  | .malformed => []
  | .jsonList rs => rs.filter (fun r => r.id ≠ "")

/-- `load_index` from `fetch_one.py`: absence is tolerated (empty index),
but `json.load` of a malformed file raises with no handler, so the run
fails (modelled as `Except.error`). -/
def load_index : IndexFile → Except Unit (List PostIndex × List String)
  | .absent => .ok ([], [])
  | .malformed => .error ()
  | .jsonList rs => .ok (rs, rs.map (fun r => r.id))

/-- `sort_key` from `main` (`fetch.py` lines 388-389). -/
def sort_key (x : PostIndex) : Bool × String := (x.datetime == "unknown", x.datetime)

/-- Python string `<`: lexicographic comparison by code point. -/
def strLtB : List Char → List Char → Bool
  | [], [] => false
  | [], _ :: _ => true
  | _ :: _, [] => false
  | c :: cs, d :: ds =>
    if c.toNat < d.toNat then true
    else if c.toNat = d.toNat then strLtB cs ds
    else false

/-- Python `<` on the `(bool, str)` keys (`False < True`, strings by code
point). -/
def keyLtB : Bool × String → Bool × String → Bool
  | (b1, s1), (b2, s2) => (!b1 && b2) || (b1 == b2 && strLtB (s1.toList) (s2.toList))

/-- Stable descending insertion: the new element goes after every
already-placed element whose key is not smaller, which is exactly how
`sorted(..., key=sort_key, reverse=True)` orders ties (stable). -/
def insertDesc (x : PostIndex) : List PostIndex → List PostIndex
  | [] => [x]
  | y :: ys => if keyLtB (sort_key y) (sort_key x) then x :: y :: ys else y :: insertDesc x ys

/-- `index_sorted = sorted(index, key=sort_key, reverse=True)`. -/
def main_sorted_index (l : List PostIndex) : List PostIndex :=
  l.foldl (fun acc x => insertDesc x acc) []

lemma load_consistency (f : IndexFile) :
    (load_old_index f).map (fun r => r.id) = load_existing_ids f := by
  cases f <;> rfl

/-- A dated record, as `main` would append it. -/
def recDated : PostIndex :=
  { id := "1001"
    title := "a"
    datetime := "2024.05.01 10:00"
    url := "https://www.nogizaka46.com/s/n46/diary/detail/1001"
    local_dir := "posts/2024/2024-05-01_1000_1001"
    images := []
    links_in_post := [] }

/-- A record whose timestamp extraction failed. -/
def recUnknown : PostIndex :=
  { id := "1002"
    title := "b"
    datetime := "unknown"
    url := "https://www.nogizaka46.com/s/n46/diary/detail/1002"
    local_dir := "posts/unknown/1002"
    images := []
    links_in_post := [] }

/-- Claim C3, the bug (fetch.py lines 387-391): `sorted` with key
`(dt == "unknown", dt)` and `reverse=True` puts records with the sentinel
"unknown" timestamp FIRST (`True` sorts above `False` when reversed), while
the code's own comment and the spec require them to come after all dated
records.  Evaluating the sort on a dated record and an "unknown" record
shows the "unknown" one emerges at the head. -/
theorem main_sorted_index_unknown_first :
    main_sorted_index [recDated, recUnknown] = [recUnknown, recDated] ∧
    (main_sorted_index [recDated, recUnknown]).head? = some recUnknown := by
  constructor <;> rfl

/-- Claim C9, counterexample: `fetch_one.py`'s `load_index` has no handler
around `json.load`, so a malformed persisted index raises and fails the
whole run rather than being treated as empty. -/
theorem load_index_fails_on_malformed :
    load_index IndexFile.malformed = Except.error () := rfl

/-- Claim C9, amended: `fetch.py` treats an absent or malformed (or
non-list) index as empty — silently, with no surfaced warning — in both of
its loaders, and the batch run proceeds; `fetch_one.py` tolerates only
absence. -/
theorem load_index_tolerance :
    load_existing_ids IndexFile.absent = [] ∧
    load_existing_ids IndexFile.malformed = [] ∧
    load_old_index IndexFile.absent = [] ∧
    load_old_index IndexFile.malformed = [] ∧
    load_index IndexFile.absent = Except.ok ([], []) :=
  ⟨rfl, rfl, rfl, rfl, rfl⟩

lemma main_run_cons (parse : String → Option Parsed) (ok : String → Bool)
    (st : RunState) (u : String) (us : List String) :
    main_run parse ok st (u :: us) = main_run parse ok (processUrl parse ok st u) us := rfl

lemma processUrl_none (parse : String → Option Parsed) (ok : String → Bool)
    (st : RunState) (u : String) (h : parse u = none) :
    processUrl parse ok st u = { st with fetchedDetail := st.fetchedDetail ++ [u] } := by
  simp [processUrl, h]

lemma processUrl_skip (parse : String → Option Parsed) (ok : String → Bool)
    (st : RunState) (u : String) (p : Parsed) (h : parse u = some p)
    (hm : p.pid ∈ st.existingIds) :
    processUrl parse ok st u = { st with fetchedDetail := st.fetchedDetail ++ [u] } := by
  simp [processUrl, h, hm]

lemma processUrl_new (parse : String → Option Parsed) (ok : String → Bool)
    (st : RunState) (u : String) (p : Parsed) (h : parse u = some p)
    (hm : p.pid ∉ st.existingIds) :
    processUrl parse ok st u =
      { existingIds := st.existingIds ++ [p.pid]
        index := st.index ++ [mkRecord ok p]
        fetchedDetail := st.fetchedDetail ++ [u]
        writtenPaths := st.writtenPaths ++ postWrites ok p } := by
  simp [processUrl, h, hm]

lemma main_run_invariant (parse : String → Option Parsed) (ok : String → Bool) :
    ∀ (urls : List String) (st : RunState),
      (∀ i ∈ st.index.map (fun r => r.id), i ∈ st.existingIds) →
      (st.index.map (fun r => r.id)).Nodup →
      ∃ added, (main_run parse ok st urls).index = st.index ++ added ∧
        (∀ r ∈ added, r.id ∉ st.existingIds) ∧
        ((main_run parse ok st urls).index.map (fun r => r.id)).Nodup ∧
        (∀ i ∈ (main_run parse ok st urls).index.map (fun r => r.id),
          i ∈ (main_run parse ok st urls).existingIds) := by
  intro urls
  induction urls with
  | nil =>
    intro st h1 h2
    exact ⟨[], by simp [main_run], by simp, by simpa [main_run] using h2,
      by simpa [main_run] using h1⟩
  | cons u us ih =>
    intro st h1 h2
    rw [main_run_cons]
    cases hp : parse u with
    | none =>
      rw [processUrl_none parse ok st u hp]
      exact ih _ h1 h2
    | some p =>
      by_cases hm : p.pid ∈ st.existingIds
      · rw [processUrl_skip parse ok st u p hp hm]
        exact ih _ h1 h2
      · rw [processUrl_new parse ok st u p hp hm]
        set st' : RunState :=
          { existingIds := st.existingIds ++ [p.pid]
            index := st.index ++ [mkRecord ok p]
            fetchedDetail := st.fetchedDetail ++ [u]
            writtenPaths := st.writtenPaths ++ postWrites ok p } with hst'
        have hid : (mkRecord ok p).id = p.pid := rfl
        have h1' : ∀ i ∈ st'.index.map (fun r => r.id), i ∈ st'.existingIds := by
          intro i hi
          simp only [hst', List.map_append, List.mem_append, List.map_cons,
            List.map_nil, List.mem_cons, List.not_mem_nil, or_false] at hi ⊢
          rcases hi with hi | hi
          · exact Or.inl (h1 i hi)
          · exact Or.inr (by rw [hi, hid])
        have h2' : (st'.index.map (fun r => r.id)).Nodup := by
          simp only [hst', List.map_append]
          rw [List.nodup_append]
          refine ⟨h2, by simp, ?_⟩
          intro i hi hcontra
          simp only [List.map_cons, List.map_nil, List.mem_cons, List.not_mem_nil,
            or_false, hid] at hcontra
          rw [hcontra] at hi
          exact hm (h1 p.pid hi)
        obtain ⟨added', heq, hnew, hnd, hsub⟩ := ih st' h1' h2'
        refine ⟨mkRecord ok p :: added', ?_, ?_, hnd, hsub⟩
        · rw [heq]
          simp [hst']
        · intro r hr
          rcases List.mem_cons.mp hr with rfl | hr
          · rw [hid]; exact hm
          · have := hnew r hr
            simp only [hst', List.mem_append] at this
            intro hc
            exact this (Or.inl hc)

lemma insertDesc_perm (x : PostIndex) : ∀ l, (insertDesc x l).Perm (x :: l) := by
  intro l
  induction l with
  | nil => simp [insertDesc]
  | cons y ys ih =>
    simp only [insertDesc]
    by_cases h : keyLtB (sort_key y) (sort_key x) = true
    · rw [if_pos h]
    · rw [if_neg h]
      exact ((ih.cons y).trans (List.Perm.swap x y ys))

lemma sortFold_perm : ∀ (l acc : List PostIndex),
    (l.foldl (fun acc x => insertDesc x acc) acc).Perm (l ++ acc) := by
  intro l
  induction l with
  | nil => intro acc; simp
  | cons x xs ih =>
    intro acc
    rw [List.foldl_cons]
    refine (ih _).trans ?_
    refine (List.Perm.append_left xs (insertDesc_perm x acc)).trans ?_
    exact List.perm_middle

lemma main_sorted_index_perm (l : List PostIndex) : (main_sorted_index l).Perm l := by
  have h := sortFold_perm l []
  simpa [main_sorted_index] using h

/-- Claim C2: merging is keyed by `id`.  Starting from any loaded state
whose index ids are distinct and all registered in `existing_ids` (what
`load_old_index` / `load_existing_ids` produce from a well-formed index),
running the batch (a) leaves every existing record in place and unchanged —
the new index extends the old one, (b) never adds a record whose id was
already present, (c) keeps at most one entry per id, and (d) the sorting
pass that precedes persisting only permutes the merged records. -/
theorem merge_keyed_by_id (parse : String → Option Parsed) (ok : String → Bool)
    (st : RunState) (urls : List String)
    (h1 : ∀ i ∈ st.index.map (fun r => r.id), i ∈ st.existingIds)
    (h2 : (st.index.map (fun r => r.id)).Nodup) :
    ∃ added, (main_run parse ok st urls).index = st.index ++ added ∧
      (∀ r ∈ added, r.id ∉ st.existingIds) ∧
      ((main_run parse ok st urls).index.map (fun r => r.id)).Nodup ∧
      (main_sorted_index ((main_run parse ok st urls).index)).Perm
        ((main_run parse ok st urls).index) := by
  obtain ⟨added, heq, hnew, hnd, _⟩ := main_run_invariant parse ok urls st h1 h2
  exact ⟨added, heq, hnew, hnd, main_sorted_index_perm _⟩

/-- A parsed post for id 1001 (it is already archived in the witness state). -/
def wParsed1001 : Parsed :=
  { title := "a"
    dt := "2024.05.01 10:00"
    pid := "1001"
    finalUrl := "https://www.nogizaka46.com/s/n46/diary/detail/1001"
    imageUrls := []
    links := [] }

/-- A parsed post for a new id 1003. -/
def wParsed1003 : Parsed :=
  { title := "c"
    dt := "2024.05.02 09:00"
    pid := "1003"
    finalUrl := "https://www.nogizaka46.com/s/n46/diary/detail/1003"
    imageUrls := []
    links := [] }

/-- A parse oracle answering the two detail URLs of the witness batch. -/
def wParse : String → Option Parsed := fun u =>
  if u = "https://www.nogizaka46.com/s/n46/diary/detail/1001" then some wParsed1001
  else if u = "https://www.nogizaka46.com/s/n46/diary/detail/1003" then some wParsed1003
  else none

/-- A download oracle where every image succeeds. -/
def wOkAll : String → Bool := fun _ => true

/-- The loaded state of a run whose persisted index already holds id 1001. -/
def wState : RunState :=
  { existingIds := ["1001"]
    index := [recDated]
    fetchedDetail := []
    writtenPaths := [] }

/-- The witness batch: the already-archived post plus one new post. -/
def wUrls : List String :=
  ["https://www.nogizaka46.com/s/n46/diary/detail/1001",
   "https://www.nogizaka46.com/s/n46/diary/detail/1003"]

/-- Witness for C2 at a concrete state and batch. -/
theorem merge_keyed_by_id_witness :
    ∃ added, (main_run wParse wOkAll wState wUrls).index = wState.index ++ added ∧
      (∀ r ∈ added, r.id ∉ wState.existingIds) ∧
      ((main_run wParse wOkAll wState wUrls).index.map (fun r => r.id)).Nodup ∧
      (main_sorted_index ((main_run wParse wOkAll wState wUrls).index)).Perm
        ((main_run wParse wOkAll wState wUrls).index) :=
  merge_keyed_by_id wParse wOkAll wState wUrls (by decide) (by decide)

lemma main_run_fetches_all (parse : String → Option Parsed) (ok : String → Bool) :
    ∀ (urls : List String) (st : RunState),
      (main_run parse ok st urls).fetchedDetail = st.fetchedDetail ++ urls := by
  intro urls
  induction urls with
  | nil => intro st; simp [main_run]
  | cons u us ih =>
    intro st
    rw [main_run_cons]
    cases hp : parse u with
    | none =>
      rw [processUrl_none parse ok st u hp, ih]
      simp
    | some p =>
      by_cases hm : p.pid ∈ st.existingIds
      · rw [processUrl_skip parse ok st u p hp hm, ih]; simp
      · rw [processUrl_new parse ok st u p hp hm, ih]; simp

/-- Claim C4, counterexample: a post whose id is already in the persisted
index IS re-fetched from the network on the next batch run — `main` calls
`parse_post(url)` (which performs the HTTP GET) before it checks
`pid in existing_ids`.  Concretely: id 1001 is in the loaded index, the
walker rediscovers its detail URL, and after the run the fetch log contains
that URL. -/
theorem existing_post_refetched :
    "1001" ∈ wState.existingIds ∧
    wParse "https://www.nogizaka46.com/s/n46/diary/detail/1001" = some wParsed1001 ∧
    wParsed1001.pid = "1001" ∧
    (main_run wParse wOkAll wState
        ["https://www.nogizaka46.com/s/n46/diary/detail/1001"]).fetchedDetail
      = ["https://www.nogizaka46.com/s/n46/diary/detail/1001"] :=
  ⟨by decide, by rfl, rfl, by rfl⟩

/-- Claim C4, amended: an already-indexed post is re-fetched (its detail
page is downloaded again by `parse_post` before the id check), but nothing
else happens to it: no artifact is written, its index entry and id set are
untouched (only the fetch log grows), and after any batch run the final
index still holds exactly one entry for that id.  (`fetch_one.py`, by
contrast, checks the id before fetching.) -/
theorem existing_post_skipped_after_fetch (parse : String → Option Parsed)
    (ok : String → Bool) (st : RunState) (u : String) (p : Parsed) (urls : List String)
    (hu : parse u = some p) (hm : p.pid ∈ st.existingIds)
    (h1 : ∀ i ∈ st.index.map (fun r => r.id), i ∈ st.existingIds)
    (h2 : (st.index.map (fun r => r.id)).Nodup)
    (hin : p.pid ∈ st.index.map (fun r => r.id)) :
    processUrl parse ok st u = { st with fetchedDetail := st.fetchedDetail ++ [u] } ∧
    ((main_run parse ok st urls).index.map (fun r => r.id)).count p.pid = 1 := by
  refine ⟨processUrl_skip parse ok st u p hu hm, ?_⟩
  obtain ⟨added, heq, hnew, hnd, _⟩ := main_run_invariant parse ok urls st h1 h2
  rw [heq, List.map_append, List.count_append]
  have hc1 : (st.index.map (fun r => r.id)).count p.pid = 1 :=
    List.count_eq_one_of_mem h2 hin
  have hc0 : (added.map (fun r => r.id)).count p.pid = 0 := by
    rw [List.count_eq_zero]
    intro hcon
    obtain ⟨r, hr, hrid⟩ := List.mem_map.mp hcon
    exact hnew r hr (hrid ▸ hm)
  rw [hc1, hc0]

/-- Witness for the amended C4 theorem at the concrete witness run. -/
theorem existing_post_skipped_after_fetch_witness :
    processUrl wParse wOkAll wState "https://www.nogizaka46.com/s/n46/diary/detail/1001"
      = { wState with
          fetchedDetail := wState.fetchedDetail ++
            ["https://www.nogizaka46.com/s/n46/diary/detail/1001"] } ∧
    ((main_run wParse wOkAll wState wUrls).index.map (fun r => r.id)).count "1001" = 1 :=
  existing_post_skipped_after_fetch wParse wOkAll wState
    "https://www.nogizaka46.com/s/n46/diary/detail/1001" wParsed1001 wUrls
    (by rfl) (by decide) (by decide) (by decide) (by decide)

lemma processUrl_setFetched (parse : String → Option Parsed) (ok : String → Bool)
    (st : RunState) (u : String) (l : List String) :
    processUrl parse ok { st with fetchedDetail := l } u
      = { processUrl parse ok st u with fetchedDetail := l ++ [u] } := by
  cases hp : parse u with
  | none => simp [processUrl, hp]
  | some p =>
    by_cases hm : p.pid ∈ st.existingIds
    · simp [processUrl, hp, hm]
    · simp [processUrl, hp, hm]

lemma main_run_setFetched (parse : String → Option Parsed) (ok : String → Bool) :
    ∀ (urls : List String) (st : RunState) (l : List String),
      main_run parse ok { st with fetchedDetail := l } urls
        = { main_run parse ok st urls with fetchedDetail := l ++ urls } := by
  intro urls
  induction urls with
  | nil => intro st l; simp [main_run]
  | cons u us ih =>
    intro st l
    rw [main_run_cons, processUrl_setFetched, ih, main_run_cons]
    simp

/-- Claim C7: a detail page whose fetch/parse fails (non-200 status raises
inside `parse_post`, and `main` catches it and `continue`s) only loses that
single post: the run over the batch with the failing URL produces the same
index, id set and file writes as the run without it — the failed post was
never added to the index, so a later run can retry it — and every other URL,
before and after, is still processed; only the fetch log records the
attempt. -/
theorem failed_detail_skips_only_that_post (parse : String → Option Parsed)
    (ok : String → Bool) (st : RunState) (u : String) (us₁ us₂ : List String)
    (hu : parse u = none) :
    (main_run parse ok st (us₁ ++ u :: us₂)).index
        = (main_run parse ok st (us₁ ++ us₂)).index ∧
    (main_run parse ok st (us₁ ++ u :: us₂)).existingIds
        = (main_run parse ok st (us₁ ++ us₂)).existingIds ∧
    (main_run parse ok st (us₁ ++ u :: us₂)).writtenPaths
        = (main_run parse ok st (us₁ ++ us₂)).writtenPaths ∧
    (main_run parse ok st (us₁ ++ u :: us₂)).fetchedDetail
        = st.fetchedDetail ++ (us₁ ++ u :: us₂) := by
  have hsplit : ∀ (a b : List String) (s : RunState),
      main_run parse ok s (a ++ b) = main_run parse ok (main_run parse ok s a) b := by
    intro a b s
    simp [main_run, List.foldl_append]
  have hL : main_run parse ok st (us₁ ++ u :: us₂)
      = { main_run parse ok (main_run parse ok st us₁) us₂ with
          fetchedDetail :=
            ((main_run parse ok st us₁).fetchedDetail ++ [u]) ++ us₂ } := by
    rw [hsplit us₁ (u :: us₂) st, main_run_cons,
      processUrl_none parse ok _ u hu]
    have := main_run_setFetched parse ok us₂ (main_run parse ok st us₁)
      ((main_run parse ok st us₁).fetchedDetail ++ [u])
    simpa using this
  have hR : main_run parse ok st (us₁ ++ us₂)
      = main_run parse ok (main_run parse ok st us₁) us₂ := hsplit us₁ us₂ st
  rw [hL, hR]
  refine ⟨rfl, rfl, rfl, ?_⟩
  show (main_run parse ok st us₁).fetchedDetail ++ [u] ++ us₂
      = st.fetchedDetail ++ (us₁ ++ u :: us₂)
  rw [main_run_fetches_all parse ok us₁]
  simp

/-- A parse oracle that fails on the middle URL of the witness batch. -/
def wParseFail : String → Option Parsed := fun u =>
  if u = "https://www.nogizaka46.com/s/n46/diary/detail/1004" then none
  else wParse u

/-- Witness for C7: with the failing URL inserted mid-batch the run yields
the same index, ids and writes as without it. -/
theorem failed_detail_skips_only_that_post_witness :
    (main_run wParseFail wOkAll wState
        (["https://www.nogizaka46.com/s/n46/diary/detail/1001"] ++
          "https://www.nogizaka46.com/s/n46/diary/detail/1004" ::
          ["https://www.nogizaka46.com/s/n46/diary/detail/1003"])).index
      = (main_run wParseFail wOkAll wState
          (["https://www.nogizaka46.com/s/n46/diary/detail/1001"] ++
            ["https://www.nogizaka46.com/s/n46/diary/detail/1003"])).index :=
  (failed_detail_skips_only_that_post wParseFail wOkAll wState
    "https://www.nogizaka46.com/s/n46/diary/detail/1004"
    ["https://www.nogizaka46.com/s/n46/diary/detail/1001"]
    ["https://www.nogizaka46.com/s/n46/diary/detail/1003"] (by rfl)).1

/-- The image list the spec's alignment invariant predicts: the `i`-th
distinct image URL (1-based counter `n`) saved under the zero-padded
counter and its own extension. -/
def alignedImages (dir : String) : Nat → List String → List String
  | _, [] => []
  | n, u :: us => (dir ++ "/" ++ relName n u) :: alignedImages dir (n + 1) us

lemma archiveImages_all_ok (ok : String → Bool) (dir : String) :
    ∀ (urls : List String) (n : Nat), (∀ u ∈ urls, ok u = true) →
      (archiveImages ok dir n urls).1 = alignedImages dir n urls := by
  intro urls
  induction urls with
  | nil => intro n _; rfl
  | cons u us ih =>
    intro n h
    have hu : ok u = true := h u (by simp)
    simp only [archiveImages, alignedImages, hu, if_pos]
    rw [ih (n + 1) (fun v hv => h v (by simp [hv]))]

/-- Claim C5, amended: when every image download of the post succeeds, the
record's `images` sequence is positionally aligned with the post's content —
entry `i` is the saved file of the `i`-th distinct image URL, numbered
`i+1` zero-padded with the URL's own extension; a failed download removes
its entry from the sequence (the claim's unconditional alignment fails,
see the counterexample). -/
theorem images_aligned_when_downloads_ok (ok : String → Bool) (p : Parsed)
    (h : ∀ u ∈ p.imageUrls, ok u = true) :
    (mkRecord ok p).images = alignedImages (local_dir_of p.dt p.pid) 1 p.imageUrls :=
  archiveImages_all_ok ok (local_dir_of p.dt p.pid) p.imageUrls 1 h

/-- The parsed post used in the image-archiving examples: two distinct
canonical image URLs. -/
def cx5Parsed : Parsed :=
  { title := "t"
    dt := "2024.05.01 10:00"
    pid := "123"
    finalUrl := "https://www.nogizaka46.com/s/n46/diary/detail/123"
    imageUrls := ["https://www.nogizaka46.com/files/46/a.jpg",
                  "https://www.nogizaka46.com/files/46/b.png"]
    links := [] }

/-- Witness for the amended C5 theorem: with both downloads succeeding the
record's images are exactly the aligned list. -/
theorem images_aligned_when_downloads_ok_witness :
    (mkRecord wOkAll cx5Parsed).images
      = alignedImages (local_dir_of cx5Parsed.dt cx5Parsed.pid) 1 cx5Parsed.imageUrls :=
  images_aligned_when_downloads_ok wOkAll cx5Parsed (by decide)

/-- A download oracle failing exactly on the first image URL. -/
def cx5Ok : String → Bool := fun u => u ≠ "https://www.nogizaka46.com/files/46/a.jpg"

/-- Claim C5, counterexample: when the download of the first of two distinct
image URLs fails, the persisted `images` sequence has a single entry — the
second URL's file, numbered `02` — so `images[0]` is NOT the saved file of
the 1st distinct image URL and no entry corresponds to it at all. -/
theorem images_misaligned_on_failed_download :
    cx5Parsed.imageUrls.length = 2 ∧
    cx5Ok "https://www.nogizaka46.com/files/46/a.jpg" = false ∧
    (mkRecord cx5Ok cx5Parsed).images
      = ["posts/2024/2024-05-01_1000_123/images/02.png"] :=
  ⟨rfl, rfl, rfl⟩

lemma archiveImages_length (ok : String → Bool) (dir : String) :
    ∀ (urls : List String) (n : Nat),
      (archiveImages ok dir n urls).1.length = (urls.filter (fun v => ok v)).length := by
  intro urls
  induction urls with
  | nil => intro n; rfl
  | cons u us ih =>
    intro n
    simp only [archiveImages, List.filter_cons]
    by_cases hu : ok u = true
    · simp [hu, ih (n + 1)]
    · simp [hu, Bool.not_eq_true _ ▸ hu, ih (n + 1)]

lemma lookup_mapping_not_ok (ok : String → Bool) (dir v : String) (hv : ok v = false) :
    ∀ (urls : List String) (n : Nat),
      List.lookup v (archiveImages ok dir n urls).2 = none := by
  intro urls
  induction urls with
  | nil => intro n; rfl
  | cons u us ih =>
    intro n
    simp only [archiveImages]
    by_cases hu : ok u = true
    · rw [if_pos hu]
      have hne : (v == u) = false := by
        rw [beq_eq_false_iff_ne]
        intro h
        rw [h, hu] at hv
        cases hv
      simp [List.lookup, hne, ih (n + 1)]
    · rw [if_neg hu]
      exact ih (n + 1)

lemma lookup_mapping_ok (ok : String → Bool) (dir v : String) (hv : ok v = true) :
    ∀ (urls : List String) (n : Nat), v ∈ urls →
      ∃ m, List.lookup v (archiveImages ok dir n urls).2 = some (relName m v) := by
  intro urls
  induction urls with
  | nil => intro n h; simp at h
  | cons u us ih =>
    intro n hm
    simp only [archiveImages]
    by_cases hvu : v = u
    · subst hvu
      rw [if_pos hv]
      exact ⟨n, by simp [List.lookup]⟩
    · have hm' : v ∈ us := by
        rcases List.mem_cons.mp hm with h | h
        · exact absurd h hvu
        · exact h
      by_cases hu : ok u = true
      · rw [if_pos hu]
        have hne : (v == u) = false := by simp [hvu]
        obtain ⟨m, hm2⟩ := ih (n + 1) hm'
        exact ⟨m, by simp [List.lookup, hne, hm2]⟩
      · rw [if_neg hu]
        exact ih (n + 1) hm'

/-- Claim C8: a failed image download does not abort archiving the post.
With one image URL failing: the post's index entry is still appended and its
artifacts still written; the failed URL gets no entry in the local mapping
(and correspondingly no saved path — `images` has exactly one entry per
SUCCESSFUL download); every `img` reference resolving to the failed URL is
left unrewritten, pointing at the remote original, and every reference
resolving to a successfully downloaded URL is rewritten to its local
relative name. -/
theorem image_failure_scoped (parse : String → Option Parsed) (ok : String → Bool)
    (st : RunState) (u : String) (p : Parsed) (uf : String)
    (hu : parse u = some p) (hnew : p.pid ∉ st.existingIds)
    (huf : uf ∈ p.imageUrls) (hfail : ok uf = false) :
    (processUrl parse ok st u).index = st.index ++ [mkRecord ok p] ∧
    (processUrl parse ok st u).writtenPaths = st.writtenPaths ++ postWrites ok p ∧
    (mkRecord ok p).images.length = (p.imageUrls.filter (fun v => ok v)).length ∧
    List.lookup uf (archiveImages ok (local_dir_of p.dt p.pid) 1 p.imageUrls).2 = none ∧
    (∀ src, stripQuery (urljoinBase src) = uf →
      rewrite_img_src (archiveImages ok (local_dir_of p.dt p.pid) 1 p.imageUrls).2 src
        = src) ∧
    (∀ v ∈ p.imageUrls, ok v = true →
      ∃ m, List.lookup v (archiveImages ok (local_dir_of p.dt p.pid) 1 p.imageUrls).2
            = some (relName m v) ∧
        ∀ src, stripQuery (urljoinBase src) = v →
          rewrite_img_src (archiveImages ok (local_dir_of p.dt p.pid) 1 p.imageUrls).2 src
            = relName m v) := by
  have hproc := processUrl_new parse ok st u p hu hnew
  have hlkf := lookup_mapping_not_ok ok (local_dir_of p.dt p.pid) uf hfail p.imageUrls 1
  refine ⟨by rw [hproc], by rw [hproc],
    archiveImages_length ok (local_dir_of p.dt p.pid) p.imageUrls 1, hlkf, ?_, ?_⟩
  · intro src hsrc
    simp [rewrite_img_src, hsrc, hlkf]
  · intro v hv hvok
    obtain ⟨m, hm⟩ := lookup_mapping_ok ok (local_dir_of p.dt p.pid) v hvok p.imageUrls 1 hv
    refine ⟨m, hm, ?_⟩
    intro src hsrc
    simp [rewrite_img_src, hsrc, hm]

/-- A parse oracle returning the two-image post for its detail URL. -/
def cx8Parse : String → Option Parsed := fun u =>
  if u = "https://www.nogizaka46.com/s/n46/diary/detail/123" then some cx5Parsed else none

/-- The state of a first run: nothing archived yet. -/
def emptyState : RunState :=
  { existingIds := [], index := [], fetchedDetail := [], writtenPaths := [] }

/-- Witness for C8: the post with the failed first image is still appended
to the index, and the failed URL is absent from the rewrite mapping while
the successful one is rewritten to `images/02.png`. -/
theorem image_failure_scoped_witness :
    (processUrl cx8Parse cx5Ok emptyState
        "https://www.nogizaka46.com/s/n46/diary/detail/123").index
      = emptyState.index ++ [mkRecord cx5Ok cx5Parsed] ∧
    List.lookup "https://www.nogizaka46.com/files/46/a.jpg"
      (archiveImages cx5Ok (local_dir_of cx5Parsed.dt cx5Parsed.pid) 1
        cx5Parsed.imageUrls).2 = none := by
  have h := image_failure_scoped cx8Parse cx5Ok emptyState
    "https://www.nogizaka46.com/s/n46/diary/detail/123" cx5Parsed
    "https://www.nogizaka46.com/files/46/a.jpg"
    (by rfl) (by decide) (by decide) (by decide)
  exact ⟨h.1, h.2.2.2.1⟩

end MatsuoBlog
